import Mathlib

/-!
Verification of the path-normalization core of the svg-clip-path-generator
repository.

The embedding models:
- the decomposed path-command data (`Seg`), as produced by the decomposition
  stage (`svgpath(d).abs().unarc().unshort()` in `src/unnamed/part_000`);
- `calculateBounds` (`src/unnamed/part_000`, lines 10-104), a fold over the
  segment list tracking min/max per axis and a current point;
- `normalizePathTo01` (`src/unnamed/part_000`, lines 111-169), split into the
  sequence-level transformation (`normalizeSeq`) and the string-level wrapper
  (`normalizePathTo01`) whose parse step is abstracted;
- the `rect` and `circle` arms of `shapeToPath` (`src/src/App.vue`,
  lines 98-104 and 133-135), as the segment lists their emitted path-data
  strings denote.

Coordinates are rationals: the JavaScript source computes with floating-point
numbers, but every claim under verification is about the exact arithmetic the
code's formulas denote, so ℚ is used throughout.

JavaScript `Infinity` sentinels of `calculateBounds` are modelled with
`Option`: an axis whose min/max pair is `none` has never been folded
(`minX = Infinity, maxX = -Infinity` in the source).
-/

namespace SvgClip

/-- A decomposed absolute path command, following the segment layout the
source's `calculateBounds` switches on: `M`/`L` endpoint, `H`/`V` single axis,
`C` two control points plus endpoint, `S`/`Q` one control point plus endpoint,
`T` endpoint only, `A` radii, rotation, flags and endpoint, `Z` no data. -/
inductive Seg : Type
  | M (x y : ℚ)
  | L (x y : ℚ)
  | H (x : ℚ)
  | V (y : ℚ)
  | C (x1 y1 x2 y2 x y : ℚ)
  | S (x2 y2 x y : ℚ)
  | Q (x1 y1 x y : ℚ)
  | T (x y : ℚ)
  | A (rx ry rot laf sf x y : ℚ)
  | Z
deriving DecidableEq, Repr

/-- Command kind of a segment, used to state that normalization preserves the
kind sequence. -/
inductive SegKind : Type
  | M | L | H | V | C | S | Q | T | A | Z
deriving DecidableEq, Repr

/-- The kind of a segment. -/
def Seg.kind : Seg → SegKind
  | .M _ _ => .M
  | .L _ _ => .L
  | .H _ => .H
  | .V _ => .V
  | .C _ _ _ _ _ _ => .C
  | .S _ _ _ _ => .S
  | .Q _ _ _ _ => .Q
  | .T _ _ => .T
  | .A _ _ _ _ _ _ _ => .A
  | .Z => .Z

/-- Whether a segment is an elliptical arc. The decomposition stage expands
arcs to cubic curves (`.unarc()`), so sequences reaching the normalizer carry
none. -/
def Seg.isA : Seg → Bool
  | .A _ _ _ _ _ _ _ => true
  | _ => false

/-- A PathSequence past the decomposer contains no arc segments (the spec's
Segment kind set excludes arcs). -/
def NoArc (segs : List Seg) : Prop := ∀ s ∈ segs, s.isA = false

/-- Traversal state of `calculateBounds`: per-axis min/max (`none` models the
untouched pair of `Infinity` and `-Infinity` sentinels) and the current point, which the
source initializes to `(0, 0)`. -/
structure BState : Type where
  xB : Option (ℚ × ℚ)
  yB : Option (ℚ × ℚ)
  cx : ℚ
  cy : ℚ
deriving DecidableEq, Repr

/-- Fold one value into an axis min/max pair, as the source's
`Math.min(minX, v)` / `Math.max(maxX, v)` updates do (folding into the
`Infinity` sentinels yields the value itself). -/
def foldMM : Option (ℚ × ℚ) → ℚ → Option (ℚ × ℚ)
  | none, v => some (v, v)
  | some (mn, mx), v => some (min mn v, max mx v)

/-- One step of `calculateBounds`'s `switch` (`src/unnamed/part_000`,
lines 19-101): which values each command kind folds into the box and how the
current point is updated. `Z` deliberately does nothing, exactly as the
source's `case 'Z': break` arm. -/
def step (st : BState) : Seg → BState
  | .M x y => ⟨foldMM st.xB x, foldMM st.yB y, x, y⟩
  | .L x y => ⟨foldMM st.xB x, foldMM st.yB y, x, y⟩
  | .H x => ⟨foldMM st.xB x, st.yB, x, st.cy⟩
  | .V y => ⟨st.xB, foldMM st.yB y, st.cx, y⟩
  | .C x1 y1 x2 y2 x y =>
      ⟨foldMM (foldMM (foldMM st.xB x1) x2) x,
       foldMM (foldMM (foldMM st.yB y1) y2) y, x, y⟩
  | .S x2 y2 x y =>
      ⟨foldMM (foldMM st.xB x2) x, foldMM (foldMM st.yB y2) y, x, y⟩
  | .Q x1 y1 x y =>
      ⟨foldMM (foldMM st.xB x1) x, foldMM (foldMM st.yB y1) y, x, y⟩
  | .T x y => ⟨foldMM st.xB x, foldMM st.yB y, x, y⟩
  | .A _ _ _ _ _ x y => ⟨foldMM st.xB x, foldMM st.yB y, x, y⟩
  | .Z => st

/-- The whole `calculateBounds` traversal, from the source's initial state
(`minX = Infinity, ..., currentX = 0, currentY = 0`). -/
def calcState (segs : List Seg) : BState :=
  List.foldl step ⟨none, none, 0, 0⟩ segs

/-- The x-axis values a segment folds into the bounding box (in fold order). -/
def xCoordsOf : Seg → List ℚ
  | .M x _ => [x]
  | .L x _ => [x]
  | .H x => [x]
  | .V _ => []
  | .C x1 _ x2 _ x _ => [x1, x2, x]
  | .S x2 _ x _ => [x2, x]
  | .Q x1 _ x _ => [x1, x]
  | .T x _ => [x]
  | .A _ _ _ _ _ x _ => [x]
  | .Z => []

/-- The y-axis values a segment folds into the bounding box (in fold order). -/
def yCoordsOf : Seg → List ℚ
  | .M _ y => [y]
  | .L _ y => [y]
  | .H _ => []
  | .V y => [y]
  | .C _ y1 _ y2 _ y => [y1, y2, y]
  | .S _ y2 _ y => [y2, y]
  | .Q _ y1 _ y => [y1, y]
  | .T _ y => [y]
  | .A _ _ _ _ _ _ y => [y]
  | .Z => []

/-- All x-axis coordinate values of a sequence, in traversal order. -/
def allX : List Seg → List ℚ
  | [] => []
  | s :: rest => xCoordsOf s ++ allX rest

/-- All y-axis coordinate values of a sequence, in traversal order. -/
def allY : List Seg → List ℚ
  | [] => []
  | s :: rest => yCoordsOf s ++ allY rest

/-- Rounding to six decimal digits, as `.round(6)` applied after the transform
chain in `normalizePathTo01` (half-up on the scaled value). -/
def round6 (q : ℚ) : ℚ := ((Int.floor (q * 1000000 + 1/2) : ℤ) : ℚ) / 1000000

/-- Apply `f` to every x coordinate, `g` to every y coordinate, `fr`/`gr` to
the x/y radius of an arc. Rotation and the two arc flags carry no coordinate
and are left untouched. -/
def segMap (f g fr gr : ℚ → ℚ) : Seg → Seg
  | .M x y => .M (f x) (g y)
  | .L x y => .L (f x) (g y)
  | .H x => .H (f x)
  | .V y => .V (g y)
  | .C x1 y1 x2 y2 x y => .C (f x1) (g y1) (f x2) (g y2) (f x) (g y)
  | .S x2 y2 x y => .S (f x2) (g y2) (f x) (g y)
  | .Q x1 y1 x y => .Q (f x1) (g y1) (f x) (g y)
  | .T x y => .T (f x) (g y)
  | .A rx ry rot laf sf x y => .A (fr rx) (gr ry) rot laf sf (f x) (g y)
  | .Z => .Z

/-- Modelled from the spec: the `translate(tx1,ty1).scale(sx,sy).translate(tx2,ty2)`
chains of `normalizePathTo01` (the transform semantics itself lives in the
external `svgpath` dependency, absent from the repository; the spec's Transform
contract gives `x' = (x + tx) * sx` applied to every coordinate). Coordinates
map through the composed affine map; arc radii are affected only by the scale
factors (translation never changes a radius). The radius rule models the
axis-aligned-arc case, the only arcs the repository's shape converter emits and
which never survive decomposition anyway. -/
def tsT (tx1 ty1 sx sy tx2 ty2 : ℚ) : Seg → Seg :=
  segMap (fun x => (x + tx1) * sx + tx2) (fun y => (y + ty1) * sy + ty2)
    (fun r => r * sx) (fun r => r * sy)

/-- Round every coordinate and radius of a segment to six decimal digits. -/
def roundSeg : Seg → Seg := segMap round6 round6 round6 round6

/-- The bounds-dependent core of `normalizePathTo01` (lines 130-163 of
`src/unnamed/part_000`), by cases on the per-axis min/max pairs.

Both axes defined mirrors the source literally: `width = maxX - minX`,
`height = maxY - minY`, the `width === 0 && height === 0` branch returns the
fixed `M0.5,0.5` point, the single-degenerate branches chain
translate/scale/translate, and the normal branch translate/scale, all followed
by `.round(6)`.

An axis whose pair is `none` was never folded, which in the source makes that
axis's extent `-Infinity` (never `=== 0`), and also means no segment carries a
parameter on that axis (only `Z` and the opposite single-axis command can
occur), so the source's transform arithmetic on that axis touches nothing: the
scale/translate values used for the untouched axis below are arbitrary and `1`
and `0` are chosen. With both axes untouched every segment is `Z` and the
whole chain is the identity. -/
def normCore : Option (ℚ × ℚ) → Option (ℚ × ℚ) → List Seg → List Seg
  | some (mnX, mxX), some (mnY, mxY), segs =>
    if mxX - mnX = 0 ∧ mxY - mnY = 0 then [Seg.M (1/2) (1/2)]
    else if mxX - mnX = 0 then
      segs.map fun s => roundSeg (tsT (-mnX) (-mnY) 1 (1/(mxY - mnY)) (1/2) 0 s)
    else if mxY - mnY = 0 then
      segs.map fun s => roundSeg (tsT (-mnX) (-mnY) (1/(mxX - mnX)) 1 0 (1/2) s)
    else
      segs.map fun s =>
        roundSeg (tsT (-mnX) (-mnY) (1/(mxX - mnX)) (1/(mxY - mnY)) 0 0 s)
  | some (mnX, mxX), none, segs =>
    if mxX - mnX = 0 then segs.map fun s => roundSeg (tsT (-mnX) 0 1 1 (1/2) 0 s)
    else segs.map fun s => roundSeg (tsT (-mnX) 0 (1/(mxX - mnX)) 1 0 0 s)
  | none, some (mnY, mxY), segs =>
    if mxY - mnY = 0 then segs.map fun s => roundSeg (tsT 0 (-mnY) 1 1 0 (1/2) s)
    else segs.map fun s => roundSeg (tsT 0 (-mnY) 1 (1/(mxY - mnY)) 0 0 s)
  | none, none, segs => segs

/-- Sequence-level `normalizePathTo01`: the empty-sequence passthrough
(lines 125-127) followed by the bounds computation and transform branches. -/
def normalizeSeq (segs : List Seg) : List Seg :=
  if segs = [] then segs
  else normCore (calcState segs).xB (calcState segs).yB segs

/-- Modelled from the spec: path-data serialization (§4.5). The exact numeric
digit rendering of the source's `toString` is abstracted as `Rat`'s `toString`;
no claim under verification depends on it. -/
def segToString : Seg → String
  | .M x y => "M" ++ toString x ++ "," ++ toString y
  | .L x y => "L" ++ toString x ++ "," ++ toString y
  | .H x => "H" ++ toString x
  | .V y => "V" ++ toString y
  | .C x1 y1 x2 y2 x y =>
      "C" ++ toString x1 ++ "," ++ toString y1 ++ " " ++ toString x2 ++ ","
        ++ toString y2 ++ " " ++ toString x ++ "," ++ toString y
  | .S x2 y2 x y =>
      "S" ++ toString x2 ++ "," ++ toString y2 ++ " " ++ toString x ++ ","
        ++ toString y
  | .Q x1 y1 x y =>
      "Q" ++ toString x1 ++ "," ++ toString y1 ++ " " ++ toString x ++ ","
        ++ toString y
  | .T x y => "T" ++ toString x ++ "," ++ toString y
  | .A rx ry rot laf sf x y =>
      "A" ++ toString rx ++ "," ++ toString ry ++ " " ++ toString rot ++ " "
        ++ toString laf ++ "," ++ toString sf ++ " " ++ toString x ++ ","
        ++ toString y
  | .Z => "Z"

/-- Modelled from the spec: render a sequence back to path-data text. -/
def serialize (segs : List Seg) : String :=
  String.intercalate " " (segs.map segToString)

/-- String-level `normalizePathTo01` (`src/unnamed/part_000`, lines 111-169).
The decomposition by the external `svgpath` dependency is abstracted into the
`parsed` argument: `none` models a parse that throws (the `catch` at line 165
returns the original text), `some segs` a successful decomposition into
`segs`. The guard at lines 112-114 (`!pathString || pathString.trim() === ''`)
is the trim-empty test; the guard at lines 125-127 is the empty-segments
passthrough. -/
def normalizePathTo01 (parsed : Option (List Seg)) (pathString : String) : String :=
  if pathString.trim = "" then pathString
  else
    match parsed with
    | none => pathString
    | some segs =>
        if segs = [] then pathString else serialize (normalizeSeq segs)

/-- Decomposition of the path-data string `shapeToPath` emits for a `rect`
(`src/src/App.vue`, line 103): the emitted commands are already absolute and
shorthand-free, so the decomposer returns them verbatim. -/
def rectPath (x y w h : ℚ) : List Seg :=
  [Seg.M x y, Seg.L (x + w) y, Seg.L (x + w) (y + h), Seg.L x (y + h), Seg.Z]

/-- Decomposition of the path-data string `circleToPath` emits
(`src/src/App.vue`, lines 133-135): a MoveTo to the leftmost point and two
half-circle arcs, kept as arc segments (arc expansion lives in the external
`svgpath` dependency; the in-repository `calculateBounds` handles `A` segments
directly, folding only the endpoint). -/
def circlePath (cx cy r : ℚ) : List Seg :=
  [Seg.M (cx - r) cy, Seg.A r r 0 1 0 (cx + r) cy, Seg.A r r 0 1 0 (cx - r) cy,
   Seg.Z]

theorem stepXB (st : BState) (s : Seg) :
    (step st s).xB = List.foldl foldMM st.xB (xCoordsOf s) := by
  cases s <;> rfl

theorem stepYB (st : BState) (s : Seg) :
    (step st s).yB = List.foldl foldMM st.yB (yCoordsOf s) := by
  cases s <;> rfl

theorem foldl_step_xB : ∀ (segs : List Seg) (st : BState),
    (List.foldl step st segs).xB = List.foldl foldMM st.xB (allX segs)
  | [], _ => rfl
  | s :: rest, st => by
    rw [List.foldl_cons, foldl_step_xB rest (step st s), stepXB]
    show _ = List.foldl foldMM st.xB (xCoordsOf s ++ allX rest)
    rw [List.foldl_append]

theorem foldl_step_yB : ∀ (segs : List Seg) (st : BState),
    (List.foldl step st segs).yB = List.foldl foldMM st.yB (allY segs)
  | [], _ => rfl
  | s :: rest, st => by
    rw [List.foldl_cons, foldl_step_yB rest (step st s), stepYB]
    show _ = List.foldl foldMM st.yB (yCoordsOf s ++ allY rest)
    rw [List.foldl_append]

theorem calcXB (segs : List Seg) :
    (calcState segs).xB = List.foldl foldMM none (allX segs) :=
  foldl_step_xB segs ⟨none, none, 0, 0⟩

theorem calcYB (segs : List Seg) :
    (calcState segs).yB = List.foldl foldMM none (allY segs) :=
  foldl_step_yB segs ⟨none, none, 0, 0⟩

/-- Image of an axis min/max pair under a coordinate map. -/
def obMap (f : ℚ → ℚ) : Option (ℚ × ℚ) → Option (ℚ × ℚ)
  | none => none
  | some (mn, mx) => some (f mn, f mx)

theorem foldMM_obMap (f : ℚ → ℚ) (hf : Monotone f) (b : Option (ℚ × ℚ))
    (v : ℚ) : foldMM (obMap f b) (f v) = obMap f (foldMM b v) := by
  cases b with
  | none => rfl
  | some p =>
    obtain ⟨mn, mx⟩ := p
    simp [foldMM, obMap, hf.map_min, hf.map_max]

theorem foldl_foldMM_obMap (f : ℚ → ℚ) (hf : Monotone f) :
    ∀ (l : List ℚ) (b : Option (ℚ × ℚ)),
      List.foldl foldMM (obMap f b) (l.map f) =
        obMap f (List.foldl foldMM b l)
  | [], _ => rfl
  | v :: l, b => by
    rw [List.map_cons, List.foldl_cons, List.foldl_cons, foldMM_obMap f hf,
      foldl_foldMM_obMap f hf l (foldMM b v)]

theorem foldMM_some (b : Option (ℚ × ℚ)) (v : ℚ) :
    ∃ p q, foldMM b v = some (p, q) ∧ p ≤ v ∧ v ≤ q := by
  cases b with
  | none => exact ⟨v, v, rfl, le_refl v, le_refl v⟩
  | some p =>
    obtain ⟨mn, mx⟩ := p
    exact ⟨min mn v, max mx v, rfl, min_le_right mn v, le_max_right mx v⟩

theorem foldl_foldMM_shrink :
    ∀ (l : List ℚ) (p q mn mx : ℚ),
      List.foldl foldMM (some (p, q)) l = some (mn, mx) → mn ≤ p ∧ q ≤ mx
  | [], p, q, mn, mx, h => by
    rw [List.foldl_nil, Option.some.injEq, Prod.mk.injEq] at h
    exact ⟨le_of_eq h.1.symm, le_of_eq h.2⟩
  | v :: l, p, q, mn, mx, h => by
    rw [List.foldl_cons] at h
    have h2 := foldl_foldMM_shrink l (min p v) (max q v) mn mx h
    exact ⟨h2.1.trans (min_le_left p v), (le_max_left q v).trans h2.2⟩

theorem foldl_foldMM_mem :
    ∀ (l : List ℚ) (b : Option (ℚ × ℚ)) (mn mx : ℚ),
      List.foldl foldMM b l = some (mn, mx) → ∀ v ∈ l, mn ≤ v ∧ v ≤ mx
  | [], _, _, _, _, v, hv => absurd hv (List.not_mem_nil v)
  | a :: l, b, mn, mx, h, v, hv => by
    rw [List.foldl_cons] at h
    rcases List.mem_cons.mp hv with rfl | hv2
    · obtain ⟨p, q, hpq, hpa, haq⟩ := foldMM_some b v
      rw [hpq] at h
      have hs := foldl_foldMM_shrink l p q mn mx h
      exact ⟨hs.1.trans hpa, haq.trans hs.2⟩
    · exact foldl_foldMM_mem l (foldMM b a) mn mx h v hv2

theorem xCoordsOf_segMap (f g fr gr : ℚ → ℚ) (s : Seg) :
    xCoordsOf (segMap f g fr gr s) = (xCoordsOf s).map f := by
  cases s <;> rfl

theorem yCoordsOf_segMap (f g fr gr : ℚ → ℚ) (s : Seg) :
    yCoordsOf (segMap f g fr gr s) = (yCoordsOf s).map g := by
  cases s <;> rfl

theorem allX_map (f g fr gr : ℚ → ℚ) :
    ∀ segs : List Seg,
      allX (segs.map (segMap f g fr gr)) = (allX segs).map f
  | [] => rfl
  | s :: rest => by
    rw [List.map_cons]
    show xCoordsOf (segMap f g fr gr s) ++ allX (rest.map (segMap f g fr gr)) = _
    rw [xCoordsOf_segMap, allX_map f g fr gr rest]
    show _ = (xCoordsOf s ++ allX rest).map f
    rw [List.map_append]

theorem allY_map (f g fr gr : ℚ → ℚ) :
    ∀ segs : List Seg,
      allY (segs.map (segMap f g fr gr)) = (allY segs).map g
  | [] => rfl
  | s :: rest => by
    rw [List.map_cons]
    show yCoordsOf (segMap f g fr gr s) ++ allY (rest.map (segMap f g fr gr)) = _
    rw [yCoordsOf_segMap, allY_map f g fr gr rest]
    show _ = (yCoordsOf s ++ allY rest).map g
    rw [List.map_append]

theorem kind_segMap (f g fr gr : ℚ → ℚ) (s : Seg) :
    (segMap f g fr gr s).kind = s.kind := by cases s <;> rfl

theorem round6_mono : Monotone round6 := by
  intro a b h
  unfold round6
  have h1 : a * 1000000 + 1/2 ≤ b * 1000000 + 1/2 := by linarith
  have h2 : ((Int.floor (a * 1000000 + 1/2) : ℤ) : ℚ) ≤
      ((Int.floor (b * 1000000 + 1/2) : ℤ) : ℚ) := by
    exact_mod_cast Int.floor_mono h1
  linarith

theorem round6_zero : round6 0 = 0 := by norm_num [round6, Int.floor_eq_iff]

theorem round6_one : round6 1 = 1 := by norm_num [round6, Int.floor_eq_iff]

theorem round6_half : round6 (1/2) = 1/2 := by
  norm_num [round6, Int.floor_eq_iff]

theorem monotone_round6_scale (m c : ℚ) (hc : 0 ≤ c) :
    Monotone fun v : ℚ => round6 ((v - m) * c) := by
  intro a b h
  exact round6_mono (mul_le_mul_of_nonneg_right (sub_le_sub_right h m) hc)

theorem monotone_round6_shift (m : ℚ) :
    Monotone fun v : ℚ => round6 (v - m + 1/2) := by
  intro a b h
  exact round6_mono (by linarith)

theorem roundSeg_tsT_normal (mnX mnY sx sy : ℚ) (s : Seg) :
    roundSeg (tsT (-mnX) (-mnY) sx sy 0 0 s) =
      segMap (fun v => round6 ((v - mnX) * sx))
        (fun v => round6 ((v - mnY) * sy))
        (fun r => round6 (r * sx)) (fun r => round6 (r * sy)) s := by
  cases s <;> simp [tsT, segMap, roundSeg, sub_eq_add_neg]

theorem roundSeg_tsT_wzero (mnX mnY sy : ℚ) (s : Seg) :
    roundSeg (tsT (-mnX) (-mnY) 1 sy (1/2) 0 s) =
      segMap (fun v => round6 (v - mnX + 1/2))
        (fun v => round6 ((v - mnY) * sy))
        (fun r => round6 r) (fun r => round6 (r * sy)) s := by
  cases s <;> simp [tsT, segMap, roundSeg, sub_eq_add_neg]

theorem roundSeg_tsT_hzero (mnX mnY sx : ℚ) (s : Seg) :
    roundSeg (tsT (-mnX) (-mnY) sx 1 0 (1/2) s) =
      segMap (fun v => round6 ((v - mnX) * sx))
        (fun v => round6 (v - mnY + 1/2))
        (fun r => round6 (r * sx)) (fun r => round6 r) s := by
  cases s <;> simp [tsT, segMap, roundSeg, sub_eq_add_neg]

theorem calcState_nil_xB : (calcState []).xB = none := rfl

theorem ne_nil_of_xB_some (segs : List Seg) (p : ℚ × ℚ)
    (hx : (calcState segs).xB = some p) : segs ≠ [] := by
  intro h
  rw [h, calcState_nil_xB] at hx
  exact Option.noConfusion hx

theorem kind_roundSeg_tsT (a b c d e f : ℚ) (s : Seg) :
    (roundSeg (tsT a b c d e f s)).kind = s.kind := by
  cases s <;> rfl

/-- Does the source's `width === 0` test hold on an axis pair: true exactly
when the axis was folded and its extent is zero (an untouched axis has extent
`-Infinity`, never `=== 0`). -/
def axisZero : Option (ℚ × ℚ) → Bool
  | some (mn, mx) => decide (mx - mn = 0)
  | none => false

/-- The doubly-degenerate condition of `normalizePathTo01`
(`width === 0 && height === 0`). -/
def doubleDeg (segs : List Seg) : Bool :=
  axisZero (calcState segs).xB && axisZero (calcState segs).yB

/-- C2: a path whose bounding box has zero width and zero height (a single
point) normalizes to exactly the single MoveTo `M0.5,0.5`, with no scaling
attempted. -/
theorem c2_single_point (segs : List Seg) (mnX mxX mnY mxY : ℚ)
    (hx : (calcState segs).xB = some (mnX, mxX))
    (hy : (calcState segs).yB = some (mnY, mxY))
    (hw : mxX - mnX = 0) (hh : mxY - mnY = 0) :
    normalizeSeq segs = [Seg.M (1/2) (1/2)] := by
  have hne := ne_nil_of_xB_some segs (mnX, mxX) hx
  unfold normalizeSeq
  rw [if_neg hne, hx, hy]
  simp only [normCore]
  rw [if_pos ⟨hw, hh⟩]

/-- Witness for C2 at the single point `M3,4`. -/
theorem c2_witness :
    (calcState [Seg.M 3 4]).xB = some (3, 3) ∧
    (calcState [Seg.M 3 4]).yB = some (4, 4) ∧
    ((3:ℚ) - 3 = 0) ∧ ((4:ℚ) - 4 = 0) ∧
    normalizeSeq [Seg.M 3 4] = [Seg.M (1/2) (1/2)] :=
  ⟨rfl, rfl, by norm_num, by norm_num,
   c2_single_point [Seg.M 3 4] 3 3 4 4 rfl rfl (by norm_num) (by norm_num)⟩

/-- C4 counterexample: the claim predicts the decomposed-and-bounded
`circle(0,0,1)` yields y-bounds `(cy - r, cy + r) = (-1, 1)`, but the
repository's bounds calculator folds only the endpoints of the two arc
segments, all of which have `y = cy = 0`, so the y-bounds are `(0, 0)`. -/
theorem c4_counterexample :
    (calcState (circlePath 0 0 1)).yB = some (0, 0) ∧
    (calcState (circlePath 0 0 1)).yB ≠ some (-1, 1) := by
  have h : (calcState (circlePath 0 0 1)).yB = some (0, 0) := by
    norm_num [calcState, circlePath, step, foldMM, min_def, max_def]
  refine ⟨h, ?_⟩
  rw [h]
  norm_num [Prod.ext_iff]

/-- C4 (amended): for nonnegative extents, bounding the converter's `rect`
output yields exactly `{x, y, x+w, y+h}`; bounding its `circle` output under
the repository's endpoint-only arc handling yields `{cx-r, cy, cx+r, cy}`
(not the analytic `{cx-r, cy-r, cx+r, cy+r}`). -/
theorem c4_shape_bounds (x y w h cx cy r : ℚ) (hw : 0 ≤ w) (hh : 0 ≤ h)
    (hr : 0 ≤ r) :
    ((calcState (rectPath x y w h)).xB = some (x, x + w) ∧
     (calcState (rectPath x y w h)).yB = some (y, y + h)) ∧
    ((calcState (circlePath cx cy r)).xB = some (cx - r, cx + r) ∧
     (calcState (circlePath cx cy r)).yB = some (cy, cy)) := by
  have hxw : x ≤ x + w := le_add_of_nonneg_right hw
  have hyh : y ≤ y + h := le_add_of_nonneg_right hh
  have hcr : cx - r ≤ cx + r := by linarith
  refine ⟨⟨?_, ?_⟩, ?_, ?_⟩
  · simp [calcState, rectPath, step, foldMM, min_eq_left hxw,
      max_eq_right hxw, max_eq_left hxw, min_self, max_self]
  · simp [calcState, rectPath, step, foldMM, min_eq_left hyh,
      max_eq_right hyh, max_eq_left hyh, min_self, max_self]
  · simp [calcState, circlePath, step, foldMM, min_eq_left hcr,
      max_eq_right hcr, max_eq_left hcr, min_self, max_self]
  · simp [calcState, circlePath, step, foldMM, min_self, max_self]

/-- Witness for C4 (amended) at `rect(0,0,50,50)` and `circle(2,3,1)`. -/
theorem c4_witness :
    ((0:ℚ) ≤ 50) ∧
    (calcState (rectPath 0 0 50 50)).xB = some (0, 50) ∧
    (calcState (rectPath 0 0 50 50)).yB = some (0, 50) ∧
    (calcState (circlePath 2 3 1)).xB = some (1, 3) ∧
    (calcState (circlePath 2 3 1)).yB = some (3, 3) := by
  have h := c4_shape_bounds 0 0 50 50 2 3 1 (by norm_num) (by norm_num)
    (by norm_num)
  refine ⟨by norm_num, ?_, ?_, ?_, ?_⟩
  · rw [h.1.1]; norm_num
  · rw [h.1.2]; norm_num
  · rw [h.2.1]; norm_num
  · rw [h.2.2]

/-- C5: `H` folds only the x axis (the y bounds are untouched), `V` folds only
the y axis (the x bounds are untouched), and `Z` contributes no coordinate to
either axis. -/
theorem c5_axis_folding (st : BState) (x y : ℚ) :
    ((step st (Seg.H x)).xB = foldMM st.xB x ∧
     (step st (Seg.H x)).yB = st.yB) ∧
    ((step st (Seg.V y)).yB = foldMM st.yB y ∧
     (step st (Seg.V y)).xB = st.xB) ∧
    ((step st Seg.Z).xB = st.xB ∧ (step st Seg.Z).yB = st.yB) :=
  ⟨⟨rfl, rfl⟩, ⟨rfl, rfl⟩, ⟨rfl, rfl⟩⟩

/-- C6 counterexample: after `M1,2 L3,4 Z` the claim says the current point
returns to the most recent MoveTo's coordinate `(1, 2)`, but the calculator's
`Z` arm leaves the current point unchanged, so it is `(3, 4)`. -/
theorem c6_counterexample :
    (calcState [Seg.M 1 2, Seg.L 3 4, Seg.Z]).cx = 3 ∧
    (calcState [Seg.M 1 2, Seg.L 3 4, Seg.Z]).cy = 4 ∧
    ¬((calcState [Seg.M 1 2, Seg.L 3 4, Seg.Z]).cx = 1 ∧
      (calcState [Seg.M 1 2, Seg.L 3 4, Seg.Z]).cy = 2) := by
  refine ⟨rfl, rfl, ?_⟩
  intro h
  have h1 := h.1
  norm_num [calcState, step, foldMM] at h1

/-- C6 (amended): every segment kind updates the current point to its final
coordinate pair (single-axis kinds keep the inherited other axis), except
ClosePath, which leaves the whole traversal state, current point included,
unchanged (it does not return to the most recent MoveTo's coordinate). -/
theorem c6_current_point (st : BState) :
    (∀ x y, (step st (Seg.M x y)).cx = x ∧ (step st (Seg.M x y)).cy = y) ∧
    (∀ x y, (step st (Seg.L x y)).cx = x ∧ (step st (Seg.L x y)).cy = y) ∧
    (∀ x, (step st (Seg.H x)).cx = x ∧ (step st (Seg.H x)).cy = st.cy) ∧
    (∀ y, (step st (Seg.V y)).cy = y ∧ (step st (Seg.V y)).cx = st.cx) ∧
    (∀ x1 y1 x2 y2 x y, (step st (Seg.C x1 y1 x2 y2 x y)).cx = x ∧
      (step st (Seg.C x1 y1 x2 y2 x y)).cy = y) ∧
    (∀ x2 y2 x y, (step st (Seg.S x2 y2 x y)).cx = x ∧
      (step st (Seg.S x2 y2 x y)).cy = y) ∧
    (∀ x1 y1 x y, (step st (Seg.Q x1 y1 x y)).cx = x ∧
      (step st (Seg.Q x1 y1 x y)).cy = y) ∧
    (∀ x y, (step st (Seg.T x y)).cx = x ∧ (step st (Seg.T x y)).cy = y) ∧
    (∀ rx ry rot laf sf x y,
      (step st (Seg.A rx ry rot laf sf x y)).cx = x ∧
      (step st (Seg.A rx ry rot laf sf x y)).cy = y) ∧
    step st Seg.Z = st :=
  ⟨fun _ _ => ⟨rfl, rfl⟩, fun _ _ => ⟨rfl, rfl⟩, fun _ => ⟨rfl, rfl⟩,
   fun _ => ⟨rfl, rfl⟩, fun _ _ _ _ _ _ => ⟨rfl, rfl⟩,
   fun _ _ _ _ => ⟨rfl, rfl⟩, fun _ _ _ _ => ⟨rfl, rfl⟩,
   fun _ _ => ⟨rfl, rfl⟩, fun _ _ _ _ _ _ _ => ⟨rfl, rfl⟩, rfl⟩

/-- C7: when decomposition of the path-data text fails (the external parse
throws and the `catch` at line 165 fires, modelled by `parsed = none`), the
normalizer returns the original text unchanged, whatever the text was. -/
theorem c7_malformed_passthrough (s : String) :
    normalizePathTo01 none s = s := by
  unfold normalizePathTo01
  split
  · rfl
  · rfl

/-- C9 counterexample: the single point `M3,4 Z` (width and height both zero)
normalizes to the one-segment `M0.5,0.5`, so the segment count drops from 2
to 1 and the kind sequence `[M, Z]` is not preserved. -/
theorem c9_counterexample :
    normalizeSeq [Seg.M 3 4, Seg.Z] = [Seg.M (1/2) (1/2)] ∧
    (normalizeSeq [Seg.M 3 4, Seg.Z]).length ≠
      ([Seg.M 3 4, Seg.Z] : List Seg).length := by
  have h : normalizeSeq [Seg.M 3 4, Seg.Z] = [Seg.M (1/2) (1/2)] := by
    norm_num [normalizeSeq, normCore, calcState, step, foldMM,
      List.cons_ne_nil]
  refine ⟨h, ?_⟩
  rw [h]
  norm_num

/-- C9 (amended): outside the doubly-degenerate case (bounding box of zero
width and zero height), normalization preserves the segment count and the
sequence of command kinds; only numeric parameters change. -/
theorem c9_kind_preservation (segs : List Seg) (h : doubleDeg segs = false) :
    (normalizeSeq segs).map Seg.kind = segs.map Seg.kind ∧
    (normalizeSeq segs).length = segs.length := by
  have hkinds : (normalizeSeq segs).map Seg.kind = segs.map Seg.kind := by
    unfold normalizeSeq
    split
    · rfl
    · rcases hx : (calcState segs).xB with _ | ⟨mnX, mxX⟩ <;>
        rcases hy : (calcState segs).yB with _ | ⟨mnY, mxY⟩
      · rfl
      · simp only [normCore]
        split <;>
          · rw [List.map_map]
            exact List.map_congr_left fun s _ =>
              kind_roundSeg_tsT _ _ _ _ _ _ s
      · simp only [normCore]
        split <;>
          · rw [List.map_map]
            exact List.map_congr_left fun s _ =>
              kind_roundSeg_tsT _ _ _ _ _ _ s
      · have h2 : ¬(mxX - mnX = 0 ∧ mxY - mnY = 0) := by
          intro hc
          have ht : doubleDeg segs = true := by
            unfold doubleDeg
            rw [hx, hy]
            simp [axisZero, hc.1, hc.2]
          rw [h] at ht
          exact Bool.noConfusion ht
        simp only [normCore]
        rw [if_neg h2]
        split
        · rw [List.map_map]
          exact List.map_congr_left fun s _ => kind_roundSeg_tsT _ _ _ _ _ _ s
        · split <;>
            · rw [List.map_map]
              exact List.map_congr_left fun s _ =>
                kind_roundSeg_tsT _ _ _ _ _ _ s
  refine ⟨hkinds, ?_⟩
  have h2 := congrArg List.length hkinds
  simpa using h2

/-- Witness for C9 (amended) on a non-degenerate two-segment path. -/
theorem c9_witness :
    doubleDeg [Seg.M 0 0, Seg.L 2 1] = false ∧
    (normalizeSeq [Seg.M 0 0, Seg.L 2 1]).map Seg.kind =
      ([Seg.M 0 0, Seg.L 2 1] : List Seg).map Seg.kind ∧
    (normalizeSeq [Seg.M 0 0, Seg.L 2 1]).length =
      ([Seg.M 0 0, Seg.L 2 1] : List Seg).length := by
  have hd : doubleDeg [Seg.M 0 0, Seg.L 2 1] = false := by
    norm_num [doubleDeg, axisZero, calcState, step, foldMM, min_def, max_def]
  have h := c9_kind_preservation [Seg.M 0 0, Seg.L 2 1] hd
  exact ⟨hd, h.1, h.2⟩

/-- C10: an input that is empty or whitespace-only, or whose decomposition
yields zero segments, passes through unchanged. -/
theorem c10_empty_passthrough (s : String) (parsed : Option (List Seg))
    (h : s.trim = "" ∨ parsed = some []) : normalizePathTo01 parsed s = s := by
  rcases h with h | h
  · unfold normalizePathTo01
    rw [if_pos h]
  · subst h
    unfold normalizePathTo01
    split
    · rfl
    · simp

/-- Witness for C10 with a successfully-parsed but empty segment list. -/
theorem c10_witness :
    ("x".trim = "" ∨ (some ([] : List Seg)) = some ([] : List Seg)) ∧
    normalizePathTo01 (some []) "x" = "x" :=
  ⟨Or.inr rfl, c10_empty_passthrough "x" (some []) (Or.inr rfl)⟩

/-- Specialization of the fold/map commutation to the empty initial bounds. -/
theorem foldl_foldMM_none (f : ℚ → ℚ) (hf : Monotone f) (l : List ℚ) :
    List.foldl foldMM none (l.map f) = obMap f (List.foldl foldMM none l) :=
  foldl_foldMM_obMap f hf l none

/-- Every x and y coordinate of the sequence lies in the unit interval. -/
def coordsIn01 (segs : List Seg) : Prop :=
  (∀ v ∈ allX segs, 0 ≤ v ∧ v ≤ 1) ∧ (∀ v ∈ allY segs, 0 ≤ v ∧ v ≤ 1)

/-- C1: in the normal case (positive width and height), normalization applies
`x' = (x - minX) * (1/width)` and `y' = (y - minY) * (1/height)` (then rounds
at six decimals) to every coordinate, endpoint and control point alike; every
coordinate of the output lies in `[0, 1]`, and the output's own bounding box
is exactly `(0, 1)` on each axis. -/
theorem c1_normal_unit_box (segs : List Seg) (hA : NoArc segs)
    (mnX mxX mnY mxY : ℚ)
    (hx : (calcState segs).xB = some (mnX, mxX))
    (hy : (calcState segs).yB = some (mnY, mxY))
    (hw : mnX < mxX) (hh : mnY < mxY) :
    normalizeSeq segs =
      segs.map (segMap (fun v => round6 ((v - mnX) * (1/(mxX - mnX))))
        (fun v => round6 ((v - mnY) * (1/(mxY - mnY))))
        (fun r => round6 (r * (1/(mxX - mnX))))
        (fun r => round6 (r * (1/(mxY - mnY))))) ∧
    coordsIn01 (normalizeSeq segs) ∧
    (calcState (normalizeSeq segs)).xB = some (0, 1) ∧
    (calcState (normalizeSeq segs)).yB = some (0, 1) := by
  have hw0 : mxX - mnX ≠ 0 := sub_ne_zero.mpr (ne_of_gt hw)
  have hh0 : mxY - mnY ≠ 0 := sub_ne_zero.mpr (ne_of_gt hh)
  have hwpos : 0 < mxX - mnX := sub_pos.mpr hw
  have hhpos : 0 < mxY - mnY := sub_pos.mpr hh
  have hne := ne_nil_of_xB_some segs (mnX, mxX) hx
  have hFx : Monotone fun v : ℚ => round6 ((v - mnX) * (1/(mxX - mnX))) :=
    monotone_round6_scale mnX _ (le_of_lt (one_div_pos.mpr hwpos))
  have hFy : Monotone fun v : ℚ => round6 ((v - mnY) * (1/(mxY - mnY))) :=
    monotone_round6_scale mnY _ (le_of_lt (one_div_pos.mpr hhpos))
  have hFx0 : round6 ((mnX - mnX) * (1/(mxX - mnX))) = 0 := by
    rw [sub_self, zero_mul, round6_zero]
  have hFx1 : round6 ((mxX - mnX) * (1/(mxX - mnX))) = 1 := by
    rw [mul_one_div, div_self hw0, round6_one]
  have hFy0 : round6 ((mnY - mnY) * (1/(mxY - mnY))) = 0 := by
    rw [sub_self, zero_mul, round6_zero]
  have hFy1 : round6 ((mxY - mnY) * (1/(mxY - mnY))) = 1 := by
    rw [mul_one_div, div_self hh0, round6_one]
  have hform : normalizeSeq segs =
      segs.map (segMap (fun v => round6 ((v - mnX) * (1/(mxX - mnX))))
        (fun v => round6 ((v - mnY) * (1/(mxY - mnY))))
        (fun r => round6 (r * (1/(mxX - mnX))))
        (fun r => round6 (r * (1/(mxY - mnY))))) := by
    unfold normalizeSeq
    rw [if_neg hne, hx, hy]
    simp only [normCore]
    rw [if_neg (fun hc => hw0 hc.1), if_neg hw0, if_neg hh0]
    exact List.map_congr_left fun s _ => roundSeg_tsT_normal mnX mnY _ _ s
  have hxout : (calcState (normalizeSeq segs)).xB = some (0, 1) := by
    rw [hform, calcXB, allX_map, foldl_foldMM_none _ hFx, ← calcXB, hx]
    simp only [obMap]
    rw [hFx0, hFx1]
  have hyout : (calcState (normalizeSeq segs)).yB = some (0, 1) := by
    rw [hform, calcYB, allY_map, foldl_foldMM_none _ hFy, ← calcYB, hy]
    simp only [obMap]
    rw [hFy0, hFy1]
  have hcoords : coordsIn01 (normalizeSeq segs) := by
    rw [hform]
    constructor
    · intro v hv
      rw [allX_map] at hv
      obtain ⟨u, hu, rfl⟩ := List.mem_map.mp hv
      have hb := foldl_foldMM_mem (allX segs) none mnX mxX
        (by rw [← calcXB]; exact hx) u hu
      constructor
      · calc (0:ℚ) = round6 ((mnX - mnX) * (1/(mxX - mnX))) := hFx0.symm
          _ ≤ round6 ((u - mnX) * (1/(mxX - mnX))) := hFx hb.1
      · calc round6 ((u - mnX) * (1/(mxX - mnX)))
            ≤ round6 ((mxX - mnX) * (1/(mxX - mnX))) := hFx hb.2
          _ = 1 := hFx1
    · intro v hv
      rw [allY_map] at hv
      obtain ⟨u, hu, rfl⟩ := List.mem_map.mp hv
      have hb := foldl_foldMM_mem (allY segs) none mnY mxY
        (by rw [← calcYB]; exact hy) u hu
      constructor
      · calc (0:ℚ) = round6 ((mnY - mnY) * (1/(mxY - mnY))) := hFy0.symm
          _ ≤ round6 ((u - mnY) * (1/(mxY - mnY))) := hFy hb.1
      · calc round6 ((u - mnY) * (1/(mxY - mnY)))
            ≤ round6 ((mxY - mnY) * (1/(mxY - mnY))) := hFy hb.2
          _ = 1 := hFy1
  exact ⟨hform, hcoords, hxout, hyout⟩

/-- The spec's 100 by 50 rectangle `M10,10 L110,10 L110,60 L10,60 Z`. -/
def demoRect : List Seg :=
  [Seg.M 10 10, Seg.L 110 10, Seg.L 110 60, Seg.L 10 60, Seg.Z]

/-- Witness for C1 on the spec's concrete 100 by 50 rectangle. -/
theorem c1_witness :
    NoArc demoRect ∧
    (calcState demoRect).xB = some (10, 110) ∧
    (calcState demoRect).yB = some (10, 60) ∧
    coordsIn01 (normalizeSeq demoRect) ∧
    (calcState (normalizeSeq demoRect)).xB = some (0, 1) ∧
    (calcState (normalizeSeq demoRect)).yB = some (0, 1) := by
  have hA : NoArc demoRect := by
    intro s hs
    simp only [demoRect, List.mem_cons, List.not_mem_nil, or_false] at hs
    rcases hs with rfl | rfl | rfl | rfl | rfl <;> rfl
  have hx : (calcState demoRect).xB = some (10, 110) := by
    norm_num [demoRect, calcState, step, foldMM, min_def, max_def]
  have hy : (calcState demoRect).yB = some (10, 60) := by
    norm_num [demoRect, calcState, step, foldMM, min_def, max_def]
  have h := c1_normal_unit_box demoRect hA 10 110 10 60 hx hy
    (by norm_num) (by norm_num)
  exact ⟨hA, hx, hy, h.2.1, h.2.2.1, h.2.2.2⟩

/-- C3: when the bounding box has zero width and positive height,
normalization translates by `(-minX, -minY)`, scales y by `1/height`, leaves x
unscaled, and shifts x by `+0.5`; every x coordinate of the output is exactly
`0.5` and the output's y-bounds are exactly `(0, 1)`. -/
theorem c3_zero_width (segs : List Seg) (mnX mxX mnY mxY : ℚ)
    (hx : (calcState segs).xB = some (mnX, mxX))
    (hy : (calcState segs).yB = some (mnY, mxY))
    (hw : mxX - mnX = 0) (hh : mnY < mxY) :
    normalizeSeq segs =
      segs.map (segMap (fun v => round6 (v - mnX + 1/2))
        (fun v => round6 ((v - mnY) * (1/(mxY - mnY))))
        (fun r => round6 r) (fun r => round6 (r * (1/(mxY - mnY))))) ∧
    (∀ v ∈ allX (normalizeSeq segs), v = 1/2) ∧
    (calcState (normalizeSeq segs)).yB = some (0, 1) := by
  have hh0 : mxY - mnY ≠ 0 := sub_ne_zero.mpr (ne_of_gt hh)
  have hhpos : 0 < mxY - mnY := sub_pos.mpr hh
  have hne := ne_nil_of_xB_some segs (mnX, mxX) hx
  have hmm : mxX = mnX := by linarith
  have hFy : Monotone fun v : ℚ => round6 ((v - mnY) * (1/(mxY - mnY))) :=
    monotone_round6_scale mnY _ (le_of_lt (one_div_pos.mpr hhpos))
  have hFy0 : round6 ((mnY - mnY) * (1/(mxY - mnY))) = 0 := by
    rw [sub_self, zero_mul, round6_zero]
  have hFy1 : round6 ((mxY - mnY) * (1/(mxY - mnY))) = 1 := by
    rw [mul_one_div, div_self hh0, round6_one]
  have hform : normalizeSeq segs =
      segs.map (segMap (fun v => round6 (v - mnX + 1/2))
        (fun v => round6 ((v - mnY) * (1/(mxY - mnY))))
        (fun r => round6 r) (fun r => round6 (r * (1/(mxY - mnY))))) := by
    unfold normalizeSeq
    rw [if_neg hne, hx, hy]
    simp only [normCore]
    rw [if_neg (fun hc => hh0 hc.2), if_pos hw]
    exact List.map_congr_left fun s _ => roundSeg_tsT_wzero mnX mnY _ s
  refine ⟨hform, ?_, ?_⟩
  · rw [hform]
    intro v hv
    rw [allX_map] at hv
    obtain ⟨u, hu, rfl⟩ := List.mem_map.mp hv
    have hb := foldl_foldMM_mem (allX segs) none mnX mxX
      (by rw [← calcXB]; exact hx) u hu
    have hu2 : u = mnX := le_antisymm (hmm ▸ hb.2) hb.1
    rw [hu2, sub_self, zero_add, round6_half]
  · rw [hform, calcYB, allY_map, foldl_foldMM_none _ hFy, ← calcYB, hy]
    simp only [obMap]
    rw [hFy0, hFy1]

/-- The spec's vertical line `M5,0 L5,100`. -/
def demoVert : List Seg := [Seg.M 5 0, Seg.L 5 100]

/-- Witness for C3 on the spec's vertical line, whose normalization has all
x coordinates `0.5` and y coordinates spanning `0` to `1`. -/
theorem c3_witness :
    (calcState demoVert).xB = some (5, 5) ∧
    (calcState demoVert).yB = some (0, 100) ∧
    normalizeSeq demoVert = [Seg.M (1/2) 0, Seg.L (1/2) 1] := by
  have hx : (calcState demoVert).xB = some (5, 5) := by
    norm_num [demoVert, calcState, step, foldMM, min_def, max_def]
  have hy : (calcState demoVert).yB = some (0, 100) := by
    norm_num [demoVert, calcState, step, foldMM, min_def, max_def]
  have h := c3_zero_width demoVert 5 5 0 100 hx hy (by norm_num) (by norm_num)
  refine ⟨hx, hy, ?_⟩
  rw [h.1]
  norm_num [demoVert, segMap, round6_half, round6_zero, round6_one]

/-- Auxiliary: on a unit bounding box the source's transform chain is the
identity on every segment, leaving only the rounding pass. -/
theorem roundSeg_tsT_unit (s : Seg) :
    roundSeg (tsT (-0) (-0) (1/(1-0)) (1/(1-0)) 0 0 s) = roundSeg s := by
  cases s <;> norm_num [tsT, segMap, roundSeg]

/-- C8: normalizing a sequence whose bounding box is already the unit square
applies only the rounding pass (each coordinate is unchanged within rounding
tolerance), and if the sequence is already at six-decimal precision it is
returned numerically unchanged. -/
theorem c8_idempotent (segs : List Seg)
    (hx : (calcState segs).xB = some (0, 1))
    (hy : (calcState segs).yB = some (0, 1)) :
    normalizeSeq segs = segs.map roundSeg ∧
    (segs.map roundSeg = segs → normalizeSeq segs = segs) := by
  have hne := ne_nil_of_xB_some segs (0, 1) hx
  have hform : normalizeSeq segs = segs.map roundSeg := by
    unfold normalizeSeq
    rw [if_neg hne, hx, hy]
    simp only [normCore]
    rw [if_neg (by norm_num : ¬((1:ℚ) - 0 = 0 ∧ (1:ℚ) - 0 = 0)),
      if_neg (by norm_num : ¬((1:ℚ) - 0 = 0)),
      if_neg (by norm_num : ¬((1:ℚ) - 0 = 0))]
    exact List.map_congr_left fun s _ => roundSeg_tsT_unit s
  exact ⟨hform, fun hfix => hform.trans hfix⟩

/-- A sequence already normalized to the unit box at exact precision. -/
def demoUnit : List Seg := [Seg.M 0 0, Seg.L 1 1]

/-- Witness for C8: a unit-box sequence at six-decimal precision is returned
unchanged. -/
theorem c8_witness :
    (calcState demoUnit).xB = some (0, 1) ∧
    (calcState demoUnit).yB = some (0, 1) ∧
    demoUnit.map roundSeg = demoUnit ∧
    normalizeSeq demoUnit = demoUnit := by
  have hx : (calcState demoUnit).xB = some (0, 1) := by
    norm_num [demoUnit, calcState, step, foldMM, min_def, max_def]
  have hy : (calcState demoUnit).yB = some (0, 1) := by
    norm_num [demoUnit, calcState, step, foldMM, min_def, max_def]
  have hfix : demoUnit.map roundSeg = demoUnit := by
    norm_num [demoUnit, roundSeg, segMap, round6_zero, round6_one]
  exact ⟨hx, hy, hfix, (c8_idempotent demoUnit hx hy).2 hfix⟩

end SvgClip
